import Mathlib

/-!
k8f, package `provider`, file `aws.go`

A shallow embedding of the pure parts of the AWS provider: profile
validation, the fan-in loops, region filtering, the version catalogue, the
kubeconfig naming functions and the deduplication loop of `ConnectAllEks`.

Conventions of the embedding.

* A Go `string` is a Lean `String`; the functions of package `strings` are
  defined on the character list of the string.
* A Go pointer `*string` is an `Option String`; dereferencing `none` is the
  runtime failure `none` of the enclosing function.
* A function that can fail at run time (index out of range, nil
  dereference, slice bounds) returns an `Option`; `none` is the failure.
* A channel receive loop is a fold over the list of received values, in
  arrival order.
* Calls into the AWS SDK are parameters (oracles) of the functions that
  make them.
* The struct declarations of the package are not part of `aws.go`; the
  structures below have the fields that `aws.go` reads and writes, in the
  order of its positional literals.
-/

namespace K8f

/-! ## Package `strings` -/

/-- Splitting a character list at every occurrence of `sep`: a list with
`n` separators gives `n + 1` pieces. -/
def splitChars (sep : Char) : List Char → List (List Char)
  | [] => [[]]
  | c :: cs =>
    if c = sep then [] :: splitChars sep cs
    else
      match splitChars sep cs with
      | [] => [[c]]
      | h :: t => (c :: h) :: t

/-- Go `strings.Split(s, sep)` for a one-character separator. -/
def Split (s : String) (sep : Char) : List String :=
  (splitChars sep s.data).map String.mk

/-- Go `strings.TrimPrefix(s, pre)`. -/
def TrimPrefix (s pre : String) : String :=
  if pre.data.isPrefixOf s.data then String.mk (s.data.drop pre.data.length) else s

/-- Whether `sub` occurs in `s` as a contiguous block. -/
def containsChars : List Char → List Char → Bool
  | [], sub => sub.isPrefixOf []
  | c :: cs, sub => sub.isPrefixOf (c :: cs) || containsChars cs sub

/-- Go `strings.Contains(s, substr)`. -/
def Contains (s substr : String) : Bool :=
  containsChars s.data substr.data

/-! ## Data model -/

/-- The fields of `CommandOptions` that `aws.go` reads. -/
structure CommandOptions where
  AwsRegion : String
  Validate : Bool
  Combined : Bool
  AwsClusterName : Bool
  AwsAuth : Bool
  AwsRoleString : String
  AwsEnvProfile : Bool
  deriving DecidableEq, Repr

/-- Go `AwsProfiles`. -/
structure AwsProfiles where
  Name : String
  IsRole : Bool
  Arn : String
  ConfProfile : String
  deriving DecidableEq, Repr

/-- Go `Cluster`, the seven positional fields of the literal in
`printOutResult`. -/
structure Cluster where
  Name : String
  Version : String
  Latest : String
  Region : String
  Id : String
  Tenant : String
  HowManyVersionsBack : Int
  deriving DecidableEq, Repr

/-- Go `Account`, the four positional fields of the literal in
`FullAwsList`. -/
structure Account where
  Name : String
  Clusters : List Cluster
  TotalClusters : Nat
  Tenant : String
  deriving DecidableEq, Repr

/-- Go `Provider`, the three positional fields of the literal in
`FullAwsList`. -/
structure Provider where
  Name : String
  Accounts : List Account
  TotalClusters : Nat
  deriving DecidableEq, Repr

/-- Go `Env`. -/
structure Env where
  Name : String
  Value : String
  deriving DecidableEq, Repr

/-- Go `Exec`; the field `Env` is an `interface{}` holding either nil or a
slice of `Env`. -/
structure Exec where
  APIVersion : String
  Args : List String
  Env : Option (List Env)
  Command : String
  deriving DecidableEq, Repr

/-- Go `User`. -/
structure User where
  Exec : Exec
  deriving DecidableEq, Repr

/-- Go `Context`. -/
structure Context where
  Cluster : String
  User : String
  deriving DecidableEq, Repr

/-- Go `CCluster`. -/
structure CCluster where
  Server : String
  CertificateAuthorityData : String
  deriving DecidableEq, Repr

/-- Go `LocalConfig`, the result of describing one cluster. -/
structure LocalConfig where
  Authinfo : User
  Context : Context
  Cluster : CCluster
  deriving DecidableEq, Repr

/-- Go `Users`. -/
structure Users where
  Name : String
  User : User
  deriving DecidableEq, Repr

/-- Go `Contexts`. -/
structure Contexts where
  Name : String
  Context : Context
  deriving DecidableEq, Repr

/-- Go `Clusters`. -/
structure Clusters where
  Name : String
  Cluster : CCluster
  deriving DecidableEq, Repr

/-- Go `AllConfig`. -/
structure AllConfig where
  auth : List Users
  contexts : List Contexts
  clusters : List Clusters
  deriving DecidableEq, Repr

/-! ## Naming: `SetClusterName`, `setCommand`, `AwsArgs` -/

/-- Go `CommandOptions.SetClusterName`. The result is `none` when the
pointer is nil or when `split[3]`, `split[4]` or `split[5]` is out of
range. The `default` branch of the Go `switch` on a `bool` cannot be
taken: both values have a case. -/
def CommandOptions.SetClusterName (c : CommandOptions) (arn : Option String) : Option String := do
  let a ← arn
  let split := Split a ':'
  let s5 ← split.get? 5
  let clusterName := TrimPrefix s5 "cluster/"
  let breaker := ":"
  match c.AwsClusterName with
  | false =>
    let s4 ← split.get? 4
    let s3 ← split.get? 3
    let outputName := s4 ++ breaker ++ s3 ++ breaker ++ clusterName
    pure outputName
  | true =>
    let s3 ← split.get? 3
    let outputName := s3 ++ breaker ++ clusterName
    pure outputName

/-- Go `CommandOptions.setCommand`. -/
def CommandOptions.setCommand (c : CommandOptions) : String :=
  if c.AwsAuth then "aws-iam-authenticator" else "aws"

/-- Go `CommandOptions.AwsArgs`. The helper `SplitAzIDAndGiveItem` lives in
another file of the package and is a parameter. -/
def CommandOptions.AwsArgs (SplitAzIDAndGiveItem : String → String → Nat → String)
    (c : CommandOptions) (region clusterName arn : String) : List String :=
  if c.AwsRoleString ≠ "" ∧ ¬ c.AwsAuth then
    ["--region", region, "eks", "get-token", "--cluster-name", clusterName, "--role-arn",
      "arn:aws:iam::" ++ SplitAzIDAndGiveItem arn ":" 4 ++ ":role/" ++ c.AwsRoleString]
  else if c.AwsRoleString ≠ "" ∧ c.AwsAuth then
    ["token", "-i", clusterName, "--role-arn",
      "arn:aws:iam::" ++ SplitAzIDAndGiveItem arn ":" 4 ++ ":role/" ++ c.AwsRoleString]
  else
    ["--region", region, "eks", "get-token", "--cluster-name", clusterName]

/-- Go `CommandOptions.AwsEnvs`. -/
def CommandOptions.AwsEnvs (c : CommandOptions) (profile : String) : Option (List Env) :=
  if c.AwsEnvProfile then some ([] ++ [{ Name := "AWS_PROFILE", Value := profile }]) else none

/-! ## Profiles: `validateCredentials`, `finalizeValidation`, `XinAwsProfiles` -/

/-- Go `validateCredentials`. The two SDK calls are oracles that return the
error of the call, `none` for success: `loadDefaultConfig` by profile name
and `getCallerIdentity` by profile. The result is the pair of the Go
function: the name of the faulty profile and the error. -/
def validateCredentials (loadDefaultConfig : String → Option String)
    (getCallerIdentity : AwsProfiles → Option String) :
    List AwsProfiles → String × Option String
  | [] => ("", none)
  | profile :: creds =>
    match loadDefaultConfig profile.Name with
    | some err => (profile.Name, some err)
    | none =>
      match getCallerIdentity profile with
      | some err => (profile.Name, some err)
      | none => validateCredentials loadDefaultConfig getCallerIdentity creds

/-- The slice `arr` of `finalizeValidation` while its loop runs: the cells
of the backing array that the loop ranges over, and the current length of
`arr`. The `range` clause reads the cells through the slice header it
copied before the first iteration, so it sees the writes of `append`. -/
structure SliceState where
  buf : List AwsProfiles
  len : Nat
  deriving DecidableEq, Repr

/-- Go `arr = append(arr[:i], arr[i+1:]...)` on the shared backing array:
the cells `i+1 .. len-1` move one place down, the cell `len-1` keeps its
value, and the length drops by one. `arr[i+1:]` is out of bounds when
`i+1 > len(arr)`. -/
def SliceState.removeAt (s : SliceState) (i : Nat) : Option SliceState :=
  if i + 1 ≤ s.len then
    some { buf := s.buf.take i ++ (s.buf.drop (i + 1)).take (s.len - (i + 1))
                    ++ s.buf.drop (s.len - 1),
           len := s.len - 1 }
  else none

/-- The loop `for i, v := range arr` of `finalizeValidation`, with `k`
iterations left and the index at `i`. -/
def finalizeLoop (fultyProfile : String) : Nat → Nat → SliceState → Option SliceState
  | 0, _, s => some s
  | k + 1, i, s =>
    match s.buf.get? i with
    | none => none
    | some v =>
      if v.Name = fultyProfile then
        (s.removeAt i).bind (finalizeLoop fultyProfile k (i + 1))
      else finalizeLoop fultyProfile k (i + 1) s

/-- Go `CommandOptions.finalizeValidation`. `core.FailOnError` ends the
process when the error is not nil: the result is `none`. -/
def CommandOptions.finalizeValidation (c : CommandOptions) (arr : List AwsProfiles)
    (fultyProfile : String) (err : Option String) : Option (List AwsProfiles) :=
  if c.Validate then
    match err with
    | some _ => none
    | none => some arr
  else
    match err with
    | some _ =>
      (finalizeLoop fultyProfile arr.length 0 { buf := arr, len := arr.length }).map
        fun s => s.buf.take s.len
    | none => some arr

/-- The last three statements of `GetLocalAwsProfiles`: validation followed
by `finalizeValidation`. -/
def resolveProfiles (c : CommandOptions) (loadDefaultConfig : String → Option String)
    (getCallerIdentity : AwsProfiles → Option String) (arr : List AwsProfiles) :
    Option (List AwsProfiles) :=
  let r := validateCredentials loadDefaultConfig getCallerIdentity arr
  c.finalizeValidation arr r.1 r.2

/-- Whether a profile fails validation: one of the two calls of
`validateCredentials` returns an error for it. -/
def failsValidation (loadDefaultConfig : String → Option String)
    (getCallerIdentity : AwsProfiles → Option String) (p : AwsProfiles) : Bool :=
  (loadDefaultConfig p.Name).isSome || (getCallerIdentity p).isSome

/-- The loop of `XinAwsProfiles` from index `t` on. -/
def XinAwsProfilesFrom (x : String) : Nat → List AwsProfiles → Nat × Bool
  | _, [] => (0, false)
  | t, p :: y => if Contains p.ConfProfile x then (t, true) else XinAwsProfilesFrom x (t + 1) y

/-- Go `XinAwsProfiles`. -/
def XinAwsProfiles (x : String) (y : List AwsProfiles) : Nat × Bool :=
  XinAwsProfilesFrom x 0 y

/-! ## Discovery: `FullAwsList`, `listRegions`, `getEKSversionsList` -/

/-- The receive loop of one profile task in `FullAwsList`: the region
results that are not empty are appended to `re`. -/
def collectRegions : List Cluster → List (List Cluster) → List Cluster
  | re, [] => re
  | re, aRegion :: rest =>
    if aRegion.length > 0 then collectRegions (re ++ aRegion) rest else collectRegions re rest

/-- The value that a profile task of `FullAwsList` sends on `c0`. -/
def profileResult (profile : AwsProfiles) (received : List (List Cluster)) : Account :=
  let re := collectRegions [] received
  { Name := profile.Name, Clusters := re, TotalClusters := re.length, Tenant := "" }

/-- The fan-in loop of `FullAwsList`: `f` so far, then the accounts received
on `c0` in arrival order. -/
def collectAccounts : List Account → List Account → List Account
  | f, [] => f
  | f, res :: rest =>
    if res.Clusters.length ≠ 0 then collectAccounts (f ++ [res]) rest else collectAccounts f rest

/-- The end of Go `CommandOptions.FullAwsList`: the provider built from the
accounts received on `c0`. `countTotal` is declared in another file of the
package and is a parameter. -/
def FullAwsList (countTotal : List Account → Nat) (received : List Account) : Provider :=
  let f := collectAccounts [] received
  { Name := "aws", Accounts := f, TotalClusters := countTotal f }

/-- The fields of the SDK type `ec2/types.Region` that `listRegions` reads. -/
structure Region where
  OptInStatus : Option String
  RegionName : Option String
  deriving DecidableEq, Repr

/-- The test of the loop of `listRegions`. -/
def Region.enabled (r : Region) : Bool :=
  match r.OptInStatus with
  | none => false
  | some s => s = "opted-in" || s = "opt-in-not-required"

/-- The loop over `result.Regions` in `listRegions`. -/
def listRegionsLoop : List String → List Region → Option (List String)
  | reg, [] => some reg
  | reg, r :: rest =>
    if r.enabled then
      match r.RegionName with
      | none => none
      | some name => listRegionsLoop (reg ++ [name]) rest
    else listRegionsLoop reg rest

/-- Go `AwsProfiles.listRegions`. `loadDefaultConfig` is the error of
loading the configuration of the profile, `describeRegions` the outcome of
the SDK call: an error or the region catalogue. On either error the empty
list is returned. -/
def AwsProfiles.listRegions (_p : AwsProfiles) (loadDefaultConfig : Option String)
    (describeRegions : Except String (List Region)) : Option (List String) :=
  match loadDefaultConfig with
  | some _ => some []
  | none =>
    match describeRegions with
    | .error _ => some []
    | .ok regions => listRegionsLoop [] regions

/-- The field of the SDK type `eks/types.Compatibility` that is read. -/
structure Compatibility where
  ClusterVersion : Option String
  deriving DecidableEq, Repr

/-- The field of the SDK type `eks/types.AddonVersionInfo` that is read. -/
structure AddonVersionInfo where
  Compatibilities : List Compatibility
  deriving DecidableEq, Repr

/-- The field of the SDK type `eks/types.AddonInfo` that is read. -/
structure AddonInfo where
  AddonVersions : List AddonVersionInfo
  deriving DecidableEq, Repr

/-- The field of the SDK type `eks.DescribeAddonVersionsOutput` that is
read. -/
structure DescribeAddonVersionsOutput where
  Addons : List AddonInfo
  deriving DecidableEq, Repr

/-- Modelled from the spec: `core.IfXinY` is declared in package `core`,
which is not part of the source at hand; it is list membership. -/
def IfXinY (x : String) (y : List String) : Bool :=
  y.contains x

/-- The innermost loop of `getEKSversionsList`, over `c.Compatibilities`. -/
def versionsOfCompatibilities : List String → List Compatibility → Option (List String)
  | supportList, [] => some supportList
  | supportList, v :: rest =>
    match v.ClusterVersion with
    | none => none
    | some cv =>
      if ¬ IfXinY cv supportList then versionsOfCompatibilities (supportList ++ [cv]) rest
      else versionsOfCompatibilities supportList rest

/-- The middle loop of `getEKSversionsList`, over `a.AddonVersions`. -/
def versionsOfAddonVersions : List String → List AddonVersionInfo → Option (List String)
  | supportList, [] => some supportList
  | supportList, c :: rest =>
    (versionsOfCompatibilities supportList c.Compatibilities).bind
      fun l => versionsOfAddonVersions l rest

/-- The outer loop of `getEKSversionsList`, over `addons.Addons`. -/
def versionsOfAddons : List String → List AddonInfo → Option (List String)
  | supportList, [] => some supportList
  | supportList, a :: rest =>
    (versionsOfAddonVersions supportList a.AddonVersions).bind
      fun l => versionsOfAddons l rest

/-- Go `getEKSversionsList`. -/
def getEKSversionsList (addons : DescribeAddonVersionsOutput) : Option (List String) :=
  versionsOfAddons [] addons.Addons

/-! ## Connection: `GenerateKubeConfiguration`, `ConnectAllEks` -/

/-- The field of the SDK type `eks/types.Certificate` that is read. -/
structure Certificate where
  Data : Option String
  deriving DecidableEq, Repr

/-- The fields of the SDK type `eks/types.Cluster` that
`GenerateKubeConfiguration` reads. -/
structure EksCluster where
  Arn : Option String
  Endpoint : Option String
  CertificateAuthority : Option Certificate
  Name : Option String
  deriving DecidableEq, Repr

/-- Go `GenerateKubeConfiguration`. -/
def GenerateKubeConfiguration (SplitAzIDAndGiveItem : String → String → Nat → String)
    (cluster : EksCluster) (r : String) (a : Account) (c : CommandOptions) :
    Option LocalConfig := do
  let clusterName ← c.SetClusterName cluster.Arn
  let endpoint ← cluster.Endpoint
  let ca ← cluster.CertificateAuthority
  let data ← ca.Data
  let clusters : CCluster := { Server := endpoint, CertificateAuthorityData := data }
  let contexts : Context := { Cluster := clusterName, User := clusterName }
  let name ← cluster.Name
  let arn ← cluster.Arn
  let authinfos : User :=
    { Exec :=
        { APIVersion := "client.authentication.k8s.io/v1beta1",
          Args := c.AwsArgs SplitAzIDAndGiveItem r name arn,
          Env := c.AwsEnvs a.Name,
          Command := c.setCommand } }
  pure { Authinfo := authinfos, Context := contexts, Cluster := clusters }

/-- The local variables of `ConnectAllEks` that its loops update. -/
structure ConnectState where
  auth : List Users
  contexts : List Contexts
  clusters : List Clusters
  arnContext : String
  distinctArnContexts : List String
  deriving DecidableEq, Repr

/-- The search `for _, s := range distinctArnContexts` of `ConnectAllEks`:
the value of `duplicationFound` after it. -/
def duplicationFound (key : String) : List String → Bool
  | [] => false
  | s :: rest => if s = key then true else duplicationFound key rest

/-- One iteration of the receive loop of `ConnectAllEks`, for the received
`result`. -/
def connectStep (st : ConnectState) (result : LocalConfig) : ConnectState :=
  if duplicationFound result.Context.Cluster st.distinctArnContexts then st
  else
    let arnContext := result.Context.Cluster
    { auth := st.auth ++ [{ Name := arnContext, User := result.Authinfo }],
      contexts := st.contexts ++ [{ Name := arnContext, Context := result.Context }],
      clusters := st.clusters ++ [{ Name := arnContext, Cluster := result.Cluster }],
      arnContext := arnContext,
      distinctArnContexts := st.distinctArnContexts ++ [result.Context.Cluster] }

/-- The receive loop of `ConnectAllEks` for one account: the results
received on `r` in arrival order. -/
def connectAccount : ConnectState → List LocalConfig → ConnectState
  | st, [] => st
  | st, result :: rest => connectAccount (connectStep st result) rest

/-- The loop `for _, a := range p.Accounts` of `ConnectAllEks`: per account,
the results received on its channel in arrival order. -/
def connectAccounts : ConnectState → List (List LocalConfig) → ConnectState
  | st, [] => st
  | st, received :: rest => connectAccounts (connectAccount st received) rest

/-- The state of `ConnectAllEks` before its loops. -/
def ConnectState.init : ConnectState :=
  { auth := [], contexts := [], clusters := [], arnContext := "", distinctArnContexts := [] }

/-- Go `CommandOptions.ConnectAllEks` after discovery: the returned
configuration, and the arguments of the call of `CombineConfigs` when the
option `Combined` is set. -/
def CommandOptions.ConnectAllEks (c : CommandOptions) (received : List (List LocalConfig)) :
    AllConfig × Option (AllConfig × String) :=
  let st := connectAccounts ConnectState.init received
  if c.Combined then
    ({ auth := [], contexts := [], clusters := [] },
      some ({ auth := st.auth, contexts := st.contexts, clusters := st.clusters }, st.arnContext))
  else
    ({ auth := st.auth, contexts := st.contexts, clusters := st.clusters }, none)

/-! ## Inputs of the shape of an EKS cluster ARN -/

/-- The variable segments of a cluster ARN. -/
structure ArnParts where
  partition : String
  region : String
  account : String
  name : String
  deriving DecidableEq, Repr

/-- The string `arn:<partition>:eks:<region>:<account>:cluster/<name>`. -/
def ArnParts.toArn (a : ArnParts) : String :=
  "arn:" ++ a.partition ++ ":eks:" ++ a.region ++ ":" ++ a.account ++ ":cluster/" ++ a.name

/-- No segment contains the separator `:`. -/
def ArnParts.WellFormed (a : ArnParts) : Prop :=
  ':' ∉ a.partition.data ∧ ':' ∉ a.region.data ∧ ':' ∉ a.account.data ∧ ':' ∉ a.name.data

instance (a : ArnParts) : Decidable a.WellFormed := by
  unfold ArnParts.WellFormed; infer_instance

/-- The options with every switch off and every string empty. -/
def CommandOptions.zero : CommandOptions :=
  { AwsRegion := "", Validate := false, Combined := false, AwsClusterName := false,
    AwsAuth := false, AwsRoleString := "", AwsEnvProfile := false }

/-! ## Vocabulary of the statements -/

/-- The cluster versions of a catalogue in the order in which
`getEKSversionsList` visits them: add-ons, then add-on versions, then
compatibilities. -/
def DescribeAddonVersionsOutput.clusterVersions (addons : DescribeAddonVersionsOutput) :
    List String :=
  addons.Addons.flatMap fun a =>
    a.AddonVersions.flatMap fun c => c.Compatibilities.filterMap fun v => v.ClusterVersion

/-- Appending a version that is not in the list yet. -/
def insertNew (l : List String) (v : String) : List String :=
  if v ∈ l then l else l ++ [v]

/-- The first occurrence of every element, in order. -/
def firstOccurrences : List String → List String
  | [] => []
  | v :: vs => v :: (firstOccurrences vs).filter (fun x => decide (x ≠ v))

/-- The results that the receive loop of `ConnectAllEks` keeps, given the
keys seen so far. -/
def keptResults : List String → List LocalConfig → List LocalConfig
  | _, [] => []
  | seen, r :: rs =>
    if r.Context.Cluster ∈ seen then keptResults seen rs
    else r :: keptResults (seen ++ [r.Context.Cluster]) rs

/-- The ARN of the cluster `alpha` of account `111111111111`. -/
def arnAlpha1 : ArnParts :=
  { partition := "aws", region := "us-east-1", account := "111111111111", name := "alpha" }

/-- The ARN of the cluster `alpha` of account `222222222222`, in the same
region. -/
def arnAlpha2 : ArnParts :=
  { partition := "aws", region := "us-east-1", account := "222222222222", name := "alpha" }

/-- The `i`-th piece of `strings.Split(arn, ":")`, empty when there is
none. -/
def segment (arn : String) (i : Nat) : String :=
  (Split arn ':').getD i ""

/-- Two profiles of a shared configuration file with the sections
`[profile dev-admin]` and `[profile dev]`. -/
def profilesDev : List AwsProfiles :=
  [ { Name := "dev-admin", IsRole := false, Arn := "", ConfProfile := "profile dev-admin" },
    { Name := "dev", IsRole := false, Arn := "", ConfProfile := "profile dev" } ]

/-- Two profiles with the sections `[profile stale]` and `[profile old]`. -/
def profilesStale : List AwsProfiles :=
  [ { Name := "stale", IsRole := false, Arn := "", ConfProfile := "profile stale" },
    { Name := "old", IsRole := false, Arn := "", ConfProfile := "profile old" } ]

/-- An identity check that every profile fails. -/
def identityDenied (_p : AwsProfiles) : Option String :=
  some "InvalidClientTokenId"

/-- A configuration loader that succeeds for every profile name. -/
def configLoads (_name : String) : Option String :=
  none

/-- A catalogue with two add-ons whose compatibilities overlap. -/
def catalogueExample : DescribeAddonVersionsOutput :=
  { Addons :=
      [ { AddonVersions :=
            [ { Compatibilities := [⟨some "1.29"⟩, ⟨some "1.30"⟩] },
              { Compatibilities := [⟨some "1.29"⟩, ⟨some "1.28"⟩] } ] },
        { AddonVersions := [ { Compatibilities := [⟨some "1.30"⟩, ⟨some "1.27"⟩] } ] } ] }

/-! ## The fan-in loop of `FullAwsList` -/

theorem collectAccounts_eq (f received : List Account) :
    collectAccounts f received
      = f ++ received.filter (fun a => decide (a.Clusters ≠ [])) := by
  induction received generalizing f with
  | nil => simp [collectAccounts]
  | cons res rest ih =>
    by_cases h : res.Clusters = []
    · simp [collectAccounts, ih, h]
    · simp [collectAccounts, ih, h]

/-- C7: the accounts of the provider returned by `FullAwsList` are exactly
the received accounts whose cluster list is not empty, in arrival order, and
none of them has zero clusters. -/
theorem FullAwsList_excludes_empty_accounts (countTotal : List Account → Nat)
    (received : List Account) :
    (FullAwsList countTotal received).Accounts
        = received.filter (fun a => decide (a.Clusters ≠ []))
      ∧ ∀ a ∈ (FullAwsList countTotal received).Accounts, a.Clusters.length ≠ 0 := by
  have h : (FullAwsList countTotal received).Accounts
      = received.filter (fun a => decide (a.Clusters ≠ [])) := by
    simp [FullAwsList, collectAccounts_eq]
  refine ⟨h, ?_⟩
  intro a ha
  rw [h] at ha
  have := (List.mem_filter.mp ha).2
  simpa [List.length_eq_zero] using this

/-! ## Region filtering -/

theorem Region.enabled_iff (r : Region) :
    r.enabled = true
      ↔ r.OptInStatus = some "opted-in" ∨ r.OptInStatus = some "opt-in-not-required" := by
  cases r with
  | mk st nm =>
    cases st with
    | none => simp [Region.enabled]
    | some s => simp [Region.enabled]

theorem listRegionsLoop_iff (regions : List Region) (reg out : List String) :
    listRegionsLoop reg regions = some out
      ↔ ∃ names, out = reg ++ names
          ∧ (regions.filter Region.enabled).map (fun r => r.RegionName) = names.map some := by
  induction regions generalizing reg with
  | nil =>
    simp only [listRegionsLoop, List.filter_nil, List.map_nil, Option.some.injEq]
    constructor
    · intro h; exact ⟨[], by simp [h], by simp⟩
    · rintro ⟨names, h1, h2⟩
      have : names = [] := by
        cases names with
        | nil => rfl
        | cons _ _ => simp at h2
      simp [h1, this]
  | cons r rest ih =>
    by_cases he : r.enabled = true
    · cases hn : r.RegionName with
      | none =>
        simp only [listRegionsLoop, he, hn, if_true]
        constructor
        · intro h; cases h
        · rintro ⟨names, -, h2⟩
          cases names with
          | nil => simp [List.filter_cons, he] at h2
          | cons n ns => simp [List.filter_cons, he, hn] at h2
      | some name =>
        simp only [listRegionsLoop, he, hn, if_true, ih]
        constructor
        · rintro ⟨names, h1, h2⟩
          exact ⟨name :: names, by simp [h1], by simp [List.filter_cons, he, hn, h2]⟩
        · rintro ⟨names, h1, h2⟩
          cases names with
          | nil => simp [List.filter_cons, he] at h2
          | cons n ns =>
            simp only [List.filter_cons, he, if_true, List.map_cons, hn, List.cons.injEq,
              Option.some.injEq] at h2
            exact ⟨ns, by simp [h1, h2.1], h2.2⟩
    · simp only [listRegionsLoop, he, List.filter_cons]
      exact ih reg

/-- C8: when the provider returns a region catalogue, `listRegions`
returns exactly the names of the regions whose opt-in status is "opted-in"
or "opt-in-not-required", in the order of the catalogue. -/
theorem listRegions_returns_enabled_regions (p : AwsProfiles) (regions : List Region)
    (names : List String) :
    p.listRegions none (.ok regions) = some names
      ↔ (regions.filter (fun r => decide (r.OptInStatus = some "opted-in"
            ∨ r.OptInStatus = some "opt-in-not-required"))).map (fun r => r.RegionName)
          = names.map some := by
  have hf : (fun r : Region => decide (r.OptInStatus = some "opted-in"
        ∨ r.OptInStatus = some "opt-in-not-required")) = Region.enabled := by
    funext r
    by_cases h : r.enabled = true
    · simp [h, (Region.enabled_iff r).mp h]
    · have h2 := mt (Region.enabled_iff r).mpr h
      simp only [Bool.not_eq_true] at h
      simp [h, h2]
  rw [hf]
  simp only [AwsProfiles.listRegions, listRegionsLoop_iff, List.nil_append]
  constructor
  · rintro ⟨ns, rfl, h⟩; exact h
  · intro h; exact ⟨names, rfl, h⟩

/-! ## The version catalogue -/

theorem mem_firstOccurrences (vs : List String) (x : String) :
    x ∈ firstOccurrences vs ↔ x ∈ vs := by
  induction vs with
  | nil => simp [firstOccurrences]
  | cons v vs ih =>
    simp only [firstOccurrences, List.mem_cons, List.mem_filter, ih, decide_eq_true_eq]
    by_cases h : x = v <;> simp [h]

theorem nodup_firstOccurrences (vs : List String) : (firstOccurrences vs).Nodup := by
  induction vs with
  | nil => simp [firstOccurrences]
  | cons v vs ih =>
    simp only [firstOccurrences, List.nodup_cons, List.mem_filter, decide_eq_true_eq]
    exact ⟨fun h => h.2 rfl, ih.filter _⟩

theorem pairwise_firstOccurrences (vs : List String) :
    (firstOccurrences vs).Pairwise (fun u w => vs.indexOf u < vs.indexOf w) := by
  induction vs with
  | nil => simp [firstOccurrences]
  | cons v vs ih =>
    simp only [firstOccurrences, List.pairwise_cons, List.mem_filter, decide_eq_true_eq]
    constructor
    · intro w hw
      rw [List.indexOf_cons_self, List.indexOf_cons_ne _ (Ne.symm hw.2)]
      exact Nat.succ_pos _
    · refine List.Pairwise.imp_of_mem ?_ (ih.filter _)
      intro a b ha hb hab
      have ha2 : a ≠ v := by simpa using (List.mem_filter.mp ha).2
      have hb2 : b ≠ v := by simpa using (List.mem_filter.mp hb).2
      rw [List.indexOf_cons_ne _ (Ne.symm ha2), List.indexOf_cons_ne _ (Ne.symm hb2)]
      exact Nat.succ_lt_succ hab

theorem foldl_insertNew (vs acc : List String) :
    vs.foldl insertNew acc
      = acc ++ (firstOccurrences vs).filter (fun x => decide (x ∉ acc)) := by
  induction vs generalizing acc with
  | nil => simp [firstOccurrences]
  | cons v vs ih =>
    simp only [List.foldl_cons, ih, firstOccurrences, List.filter_filter]
    by_cases h : v ∈ acc
    · simp only [insertNew, h, if_true, List.filter_cons, not_true_eq_false, decide_False,
        Bool.false_eq_true, if_false, List.append_cancel_left_eq]
      rw [List.filter_filter]
      apply List.filter_congr
      intro x _
      by_cases hx : x ∈ acc
      · simp [hx]
      · have : x ≠ v := fun e => hx (e ▸ h)
        simp [hx, this]
    · simp only [insertNew, h, if_false, List.filter_cons, not_false_eq_true, decide_True,
        if_true, List.append_assoc, List.singleton_append, List.append_cancel_left_eq,
        List.cons.injEq, true_and]
      rw [List.filter_filter]
      apply List.filter_congr
      intro x _
      by_cases hx : x ∈ acc <;> by_cases hv : x = v <;> simp [hx, hv]

theorem versionsOfCompatibilities_eq (comps : List Compatibility) (acc : List String)
    (h : ∀ v ∈ comps, v.ClusterVersion ≠ none) :
    versionsOfCompatibilities acc comps
      = some ((comps.filterMap fun v => v.ClusterVersion).foldl insertNew acc) := by
  induction comps generalizing acc with
  | nil => simp [versionsOfCompatibilities]
  | cons v rest ih =>
    have hrest : ∀ w ∈ rest, w.ClusterVersion ≠ none :=
      fun w hw => h w (List.mem_cons_of_mem _ hw)
    cases hv : v.ClusterVersion with
    | none => exact absurd hv (h v (List.mem_cons_self _ _))
    | some cv =>
      simp only [versionsOfCompatibilities, hv, List.filterMap_cons, List.foldl_cons]
      by_cases hm : cv ∈ acc
      · simp [IfXinY, insertNew, hm, ih _ hrest]
      · simp [IfXinY, insertNew, hm, ih _ hrest]

theorem versionsOfAddonVersions_eq (avs : List AddonVersionInfo) (acc : List String)
    (h : ∀ c ∈ avs, ∀ v ∈ c.Compatibilities, v.ClusterVersion ≠ none) :
    versionsOfAddonVersions acc avs
      = some ((avs.flatMap fun c =>
          c.Compatibilities.filterMap fun v => v.ClusterVersion).foldl insertNew acc) := by
  induction avs generalizing acc with
  | nil => simp [versionsOfAddonVersions]
  | cons c rest ih =>
    have hrest : ∀ d ∈ rest, ∀ v ∈ d.Compatibilities, v.ClusterVersion ≠ none :=
      fun d hd => h d (List.mem_cons_of_mem _ hd)
    simp [versionsOfAddonVersions, versionsOfCompatibilities_eq _ _ (h c (List.mem_cons_self _ _)),
      ih _ hrest, List.flatMap_cons, List.foldl_append]

theorem versionsOfAddons_eq (as : List AddonInfo) (acc : List String)
    (h : ∀ a ∈ as, ∀ c ∈ a.AddonVersions, ∀ v ∈ c.Compatibilities, v.ClusterVersion ≠ none) :
    versionsOfAddons acc as
      = some ((as.flatMap fun a => a.AddonVersions.flatMap fun c =>
          c.Compatibilities.filterMap fun v => v.ClusterVersion).foldl insertNew acc) := by
  induction as generalizing acc with
  | nil => simp [versionsOfAddons]
  | cons a rest ih =>
    have hrest : ∀ b ∈ rest, ∀ c ∈ b.AddonVersions, ∀ v ∈ c.Compatibilities,
        v.ClusterVersion ≠ none :=
      fun b hb => h b (List.mem_cons_of_mem _ hb)
    simp [versionsOfAddons, versionsOfAddonVersions_eq _ _ (h a (List.mem_cons_self _ _)),
      ih _ hrest, List.flatMap_cons, List.foldl_append]

/-- C9: for a catalogue in which every compatibility entry carries a
cluster version, `getEKSversionsList` returns a list without duplicates,
whose elements are exactly the cluster versions of the compatibility
entries, ordered by their first occurrence in the traversal of add-ons,
add-on versions and compatibilities. -/
theorem getEKSversionsList_flattens (addons : DescribeAddonVersionsOutput)
    (h : ∀ a ∈ addons.Addons, ∀ c ∈ a.AddonVersions, ∀ v ∈ c.Compatibilities,
      v.ClusterVersion ≠ none) :
    ∃ out, getEKSversionsList addons = some out
      ∧ out.Nodup
      ∧ (∀ v, v ∈ out ↔ v ∈ addons.clusterVersions)
      ∧ out.Pairwise (fun u w =>
          addons.clusterVersions.indexOf u < addons.clusterVersions.indexOf w) := by
  refine ⟨firstOccurrences addons.clusterVersions, ?_, nodup_firstOccurrences _,
    mem_firstOccurrences _, pairwise_firstOccurrences _⟩
  rw [getEKSversionsList, versionsOfAddons_eq _ _ h, foldl_insertNew]
  simp [DescribeAddonVersionsOutput.clusterVersions]

theorem getEKSversionsList_flattens_witness :
    getEKSversionsList catalogueExample = some ["1.29", "1.30", "1.28", "1.27"]
      ∧ ∃ out, getEKSversionsList catalogueExample = some out
        ∧ out.Nodup
        ∧ (∀ v, v ∈ out ↔ v ∈ catalogueExample.clusterVersions)
        ∧ out.Pairwise (fun u w =>
            catalogueExample.clusterVersions.indexOf u
              < catalogueExample.clusterVersions.indexOf w) :=
  ⟨by decide, getEKSversionsList_flattens catalogueExample (by decide)⟩

/-! ## The deduplication loop of `ConnectAllEks` -/

theorem duplicationFound_iff (key : String) (seen : List String) :
    duplicationFound key seen = true ↔ key ∈ seen := by
  induction seen with
  | nil => simp [duplicationFound]
  | cons s rest ih =>
    by_cases h : s = key
    · simp [duplicationFound, h]
    · have h2 : ¬ key = s := fun e => h e.symm
      simp [duplicationFound, h, h2, ih]

theorem connectAccount_eq (rs : List LocalConfig) (st : ConnectState) :
    (connectAccount st rs).auth
        = st.auth ++ (keptResults st.distinctArnContexts rs).map
            (fun r => { Name := r.Context.Cluster, User := r.Authinfo })
      ∧ (connectAccount st rs).contexts
        = st.contexts ++ (keptResults st.distinctArnContexts rs).map
            (fun r => { Name := r.Context.Cluster, Context := r.Context })
      ∧ (connectAccount st rs).clusters
        = st.clusters ++ (keptResults st.distinctArnContexts rs).map
            (fun r => { Name := r.Context.Cluster, Cluster := r.Cluster })
      ∧ (connectAccount st rs).distinctArnContexts
        = st.distinctArnContexts ++ (keptResults st.distinctArnContexts rs).map
            (fun r => r.Context.Cluster) := by
  induction rs generalizing st with
  | nil => simp [connectAccount, keptResults]
  | cons r rest ih =>
    by_cases h : r.Context.Cluster ∈ st.distinctArnContexts
    · have hd := (duplicationFound_iff r.Context.Cluster st.distinctArnContexts).mpr h
      simp only [connectAccount, connectStep, hd, if_true, keptResults, h]
      exact ih st
    · have hd : duplicationFound r.Context.Cluster st.distinctArnContexts = false := by
        cases hb : duplicationFound r.Context.Cluster st.distinctArnContexts with
        | false => rfl
        | true => exact absurd ((duplicationFound_iff _ _).mp hb) h
      simp only [connectAccount, connectStep, hd, keptResults, h, if_false, Bool.false_eq_true]
      have := ih
        { auth := st.auth ++ [{ Name := r.Context.Cluster, User := r.Authinfo }],
          contexts := st.contexts ++ [{ Name := r.Context.Cluster, Context := r.Context }],
          clusters := st.clusters ++ [{ Name := r.Context.Cluster, Cluster := r.Cluster }],
          arnContext := r.Context.Cluster,
          distinctArnContexts := st.distinctArnContexts ++ [r.Context.Cluster] }
      simpa using this

theorem connectAccounts_eq (received : List (List LocalConfig)) (st : ConnectState) :
    connectAccounts st received = connectAccount st received.flatten := by
  induction received generalizing st with
  | nil => simp [connectAccounts, connectAccount]
  | cons rs rest ih =>
    have happ : ∀ (xs ys : List LocalConfig) (s : ConnectState),
        connectAccount s (xs ++ ys) = connectAccount (connectAccount s xs) ys := by
      intro xs
      induction xs with
      | nil => intro ys s; simp [connectAccount]
      | cons x xs ihx => intro ys s; simp [connectAccount, ihx]
    simp [connectAccounts, ih, happ]

theorem keptResults_first (rs : List LocalConfig) (seen : List String) (r : LocalConfig)
    (h : r ∈ keptResults seen rs) :
    rs.find? (fun x => x.Context.Cluster == r.Context.Cluster) = some r
      ∧ r.Context.Cluster ∉ seen := by
  induction rs generalizing seen with
  | nil => simp [keptResults] at h
  | cons r0 rest ih =>
    by_cases h0 : r0.Context.Cluster ∈ seen
    · simp only [keptResults, h0, if_true] at h
      obtain ⟨h1, h2⟩ := ih seen h
      have hne : ¬ r0.Context.Cluster = r.Context.Cluster := fun e => h2 (e ▸ h0)
      exact ⟨by simp [List.find?_cons, hne, h1], h2⟩
    · simp only [keptResults, h0, if_false, List.mem_cons] at h
      rcases h with rfl | h
      · exact ⟨by simp [List.find?_cons], h0⟩
      · obtain ⟨h1, h2⟩ := ih _ h
        simp only [List.mem_append, List.mem_singleton, not_or] at h2
        have hne : ¬ r0.Context.Cluster = r.Context.Cluster := fun e => h2.2 e.symm
        exact ⟨by simp [List.find?_cons, hne, h1], h2.1⟩

theorem keptResults_nodup (rs : List LocalConfig) (seen : List String) :
    ((keptResults seen rs).map fun r => r.Context.Cluster).Nodup := by
  induction rs generalizing seen with
  | nil => simp [keptResults]
  | cons r0 rest ih =>
    by_cases h0 : r0.Context.Cluster ∈ seen
    · simp only [keptResults, h0, if_true]; exact ih seen
    · simp only [keptResults, h0, if_false, List.map_cons, List.nodup_cons, List.mem_map,
        not_exists, not_and]
      refine ⟨?_, ih _⟩
      intro r hr e
      have := (keptResults_first rest _ r hr).2
      simp [e] at this

theorem keptResults_mem (rs : List LocalConfig) (seen : List String) (k : String) :
    k ∈ (keptResults seen rs).map (fun r => r.Context.Cluster)
      ↔ k ∉ seen ∧ ∃ r ∈ rs, r.Context.Cluster = k := by
  induction rs generalizing seen with
  | nil => simp [keptResults]
  | cons r0 rest ih =>
    by_cases h0 : r0.Context.Cluster ∈ seen
    · simp only [keptResults, h0, if_true, ih, List.mem_cons, exists_eq_or_imp]
      constructor
      · rintro ⟨h1, h2⟩; exact ⟨h1, Or.inr h2⟩
      · rintro ⟨h1, h2 | h2⟩
        · exact absurd (h2 ▸ h0) h1
        · exact ⟨h1, h2⟩
    · simp only [keptResults, h0, if_false, List.map_cons, List.mem_cons, ih, List.mem_append,
        List.mem_singleton, not_or, exists_eq_or_imp]
      by_cases hk : k = r0.Context.Cluster
      · subst hk; simp [h0]
      · have hk2 : ¬ r0.Context.Cluster = k := fun e => hk e.symm
        simp [hk, hk2]

/-- C1: the three lists built by the receive loops of `ConnectAllEks` come
from one list of kept results: each distinct key `Context.Cluster` of the
received results has exactly one kept result, the first one received with
that key, and the entry names of each of the three lists are pairwise
distinct. -/
theorem ConnectAllEks_deduplicates (received : List (List LocalConfig)) :
    ∃ kept : List LocalConfig,
      (connectAccounts ConnectState.init received).auth
          = kept.map (fun r => { Name := r.Context.Cluster, User := r.Authinfo })
      ∧ (connectAccounts ConnectState.init received).contexts
          = kept.map (fun r => { Name := r.Context.Cluster, Context := r.Context })
      ∧ (connectAccounts ConnectState.init received).clusters
          = kept.map (fun r => { Name := r.Context.Cluster, Cluster := r.Cluster })
      ∧ (∀ k, (kept.map fun r => r.Context.Cluster).count k
          = if ∃ r ∈ received.flatten, r.Context.Cluster = k then 1 else 0)
      ∧ (∀ r ∈ kept,
          received.flatten.find? (fun x => x.Context.Cluster == r.Context.Cluster) = some r)
      ∧ ((connectAccounts ConnectState.init received).auth.map fun u => u.Name).Nodup
      ∧ ((connectAccounts ConnectState.init received).contexts.map fun u => u.Name).Nodup
      ∧ ((connectAccounts ConnectState.init received).clusters.map fun u => u.Name).Nodup := by
  have hnd := keptResults_nodup received.flatten []
  obtain ⟨h1, h2, h3, -⟩ := connectAccount_eq received.flatten ConnectState.init
  simp only [ConnectState.init, List.nil_append] at h1 h2 h3
  refine ⟨keptResults [] received.flatten, ?_, ?_, ?_, ?_, ?_, ?_, ?_, ?_⟩
  · rw [connectAccounts_eq]; exact h1
  · rw [connectAccounts_eq]; exact h2
  · rw [connectAccounts_eq]; exact h3
  · intro k
    by_cases hk : ∃ r ∈ received.flatten, r.Context.Cluster = k
    · rw [if_pos hk]
      exact List.count_eq_one_of_mem hnd ((keptResults_mem _ _ k).mpr ⟨by simp, hk⟩)
    · rw [if_neg hk]
      exact List.count_eq_zero_of_not_mem fun hm => hk ((keptResults_mem _ _ k).mp hm).2
  · intro r hr
    exact (keptResults_first _ _ r hr).1
  · rw [connectAccounts_eq]; erw [h1]; rw [List.map_map]; exact hnd
  · rw [connectAccounts_eq]; erw [h2]; rw [List.map_map]; exact hnd
  · rw [connectAccounts_eq]; erw [h3]; rw [List.map_map]; exact hnd

/-! ## The naming functions -/

theorem splitChars_ne_nil (sep : Char) (s : List Char) : splitChars sep s ≠ [] := by
  cases s with
  | nil => simp [splitChars]
  | cons c cs =>
    by_cases h : c = sep
    · simp [splitChars, h]
    · simp only [splitChars, h, if_false]
      cases splitChars sep cs <;> simp

theorem splitChars_append_sep (sep : Char) (a rest : List Char) (h : sep ∉ a) :
    splitChars sep (a ++ sep :: rest) = a :: splitChars sep rest := by
  induction a with
  | nil => simp [splitChars]
  | cons c cs ih =>
    simp only [List.mem_cons, not_or] at h
    have hc : ¬ c = sep := fun e => h.1 e.symm
    simp [splitChars, hc, ih h.2]

theorem splitChars_no_sep (sep : Char) (a : List Char) (h : sep ∉ a) :
    splitChars sep a = [a] := by
  induction a with
  | nil => simp [splitChars]
  | cons c cs ih =>
    simp only [List.mem_cons, not_or] at h
    have hc : ¬ c = sep := fun e => h.1 e.symm
    simp [splitChars, hc, ih h.2]

theorem TrimPrefix_append (pre s : String) : TrimPrefix (pre ++ s) pre = s := by
  have hp : pre.data.isPrefixOf (pre ++ s).data = true := by
    rw [List.isPrefixOf_iff_prefix, String.data_append]
    exact List.prefix_append _ _
  simp [TrimPrefix, hp, String.data_append]

theorem Split_toArn (a : ArnParts) (h : a.WellFormed) :
    Split a.toArn ':'
      = ["arn", a.partition, "eks", a.region, a.account, "cluster/" ++ a.name] := by
  obtain ⟨hp, hr, hacc, hn⟩ := h
  have hdata : a.toArn.data
      = ['a', 'r', 'n'] ++ ':' :: (a.partition.data ++ ':' :: (['e', 'k', 's'] ++ ':' ::
          (a.region.data ++ ':' :: (a.account.data ++ ':' ::
            (['c', 'l', 'u', 's', 't', 'e', 'r', '/'] ++ a.name.data))))) := by
    simp [ArnParts.toArn, String.data_append]
  have hlast : ':' ∉ ['c', 'l', 'u', 's', 't', 'e', 'r', '/'] ++ a.name.data := by
    simp only [List.mem_append, not_or]
    exact ⟨by decide, hn⟩
  rw [Split, hdata, splitChars_append_sep _ _ _ (by decide), splitChars_append_sep _ _ _ hp,
    splitChars_append_sep _ _ _ (by decide), splitChars_append_sep _ _ _ hr,
    splitChars_append_sep _ _ _ hacc, splitChars_no_sep _ _ hlast]
  simp [String.ext_iff, String.data_append]

theorem SetClusterName_toArn (c : CommandOptions) (a : ArnParts) (h : a.WellFormed) :
    c.SetClusterName (some a.toArn)
      = some (if c.AwsClusterName then a.region ++ ":" ++ a.name
              else a.account ++ ":" ++ a.region ++ ":" ++ a.name) := by
  cases hc : c.AwsClusterName <;>
    simp [CommandOptions.SetClusterName, Split_toArn a h, hc, TrimPrefix_append]

theorem append_sep_inj (sep : Char) (a b x y : List Char) (ha : sep ∉ a) (hb : sep ∉ b)
    (h : a ++ sep :: x = b ++ sep :: y) : a = b ∧ x = y := by
  induction a generalizing b with
  | nil =>
    cases b with
    | nil => simpa using h
    | cons d ds =>
      simp only [List.nil_append, List.cons_append, List.cons.injEq] at h
      exact absurd (h.1 ▸ List.mem_cons_self _ _) hb
  | cons c cs ih =>
    cases b with
    | nil =>
      simp only [List.nil_append, List.cons_append, List.cons.injEq] at h
      exact absurd (h.1 ▸ List.mem_cons_self _ _) ha
    | cons d ds =>
      simp only [List.cons_append, List.cons.injEq] at h
      simp only [List.mem_cons, not_or] at ha hb
      obtain ⟨e1, e2⟩ := ih ds ha.2 hb.2 h.2
      exact ⟨by rw [h.1, e1], e2⟩

theorem name3_inj (a1 r1 n1 a2 r2 n2 : String)
    (ha1 : ':' ∉ a1.data) (hr1 : ':' ∉ r1.data) (ha2 : ':' ∉ a2.data) (hr2 : ':' ∉ r2.data) :
    a1 ++ ":" ++ r1 ++ ":" ++ n1 = a2 ++ ":" ++ r2 ++ ":" ++ n2
      ↔ a1 = a2 ∧ r1 = r2 ∧ n1 = n2 := by
  constructor
  · intro h
    have hd : a1.data ++ ':' :: (r1.data ++ ':' :: n1.data)
        = a2.data ++ ':' :: (r2.data ++ ':' :: n2.data) := by
      have := congrArg String.data h
      simpa [String.data_append] using this
    obtain ⟨e1, e2⟩ := append_sep_inj ':' _ _ _ _ ha1 ha2 hd
    obtain ⟨e3, e4⟩ := append_sep_inj ':' _ _ _ _ hr1 hr2 e2
    exact ⟨String.ext_iff.mpr e1, String.ext_iff.mpr e3, String.ext_iff.mpr e4⟩
  · rintro ⟨rfl, rfl, rfl⟩; rfl

theorem name2_inj (r1 n1 r2 n2 : String) (hr1 : ':' ∉ r1.data) (hr2 : ':' ∉ r2.data) :
    r1 ++ ":" ++ n1 = r2 ++ ":" ++ n2 ↔ r1 = r2 ∧ n1 = n2 := by
  constructor
  · intro h
    have hd : r1.data ++ ':' :: n1.data = r2.data ++ ':' :: n2.data := by
      have := congrArg String.data h
      simpa [String.data_append] using this
    obtain ⟨e1, e2⟩ := append_sep_inj ':' _ _ _ _ hr1 hr2 hd
    exact ⟨String.ext_iff.mpr e1, String.ext_iff.mpr e2⟩
  · rintro ⟨rfl, rfl⟩; rfl

/-- C3, as amended: for well-formed cluster ARNs, with the option
`AwsClusterName` off two ARNs get the same name exactly when they agree on
account, region and cluster name; with the option on they get the same name
exactly when they agree on region and cluster name, whatever the
accounts. -/
theorem SetClusterName_key (c : CommandOptions) (a b : ArnParts)
    (ha : a.WellFormed) (hb : b.WellFormed) :
    (c.AwsClusterName = false →
        (c.SetClusterName (some a.toArn) = c.SetClusterName (some b.toArn)
          ↔ a.account = b.account ∧ a.region = b.region ∧ a.name = b.name))
      ∧ (c.AwsClusterName = true →
        (c.SetClusterName (some a.toArn) = c.SetClusterName (some b.toArn)
          ↔ a.region = b.region ∧ a.name = b.name)) := by
  constructor
  · intro hc
    rw [SetClusterName_toArn c a ha, SetClusterName_toArn c b hb]
    simp only [hc, Bool.false_eq_true, if_false, Option.some.injEq]
    exact name3_inj _ _ _ _ _ _ ha.2.2.1 ha.2.1 hb.2.2.1 hb.2.1
  · intro hc
    rw [SetClusterName_toArn c a ha, SetClusterName_toArn c b hb]
    simp only [hc, if_true, Option.some.injEq]
    exact name2_inj _ _ _ _ ha.2.1 hb.2.1

theorem SetClusterName_key_witness :
    (arnAlpha1.WellFormed ∧ arnAlpha2.WellFormed)
      ∧ (CommandOptions.zero.AwsClusterName = false →
        (CommandOptions.zero.SetClusterName (some arnAlpha1.toArn)
            = CommandOptions.zero.SetClusterName (some arnAlpha2.toArn)
          ↔ arnAlpha1.account = arnAlpha2.account ∧ arnAlpha1.region = arnAlpha2.region
              ∧ arnAlpha1.name = arnAlpha2.name))
      ∧ (CommandOptions.zero.AwsClusterName = true →
        (CommandOptions.zero.SetClusterName (some arnAlpha1.toArn)
            = CommandOptions.zero.SetClusterName (some arnAlpha2.toArn)
          ↔ arnAlpha1.region = arnAlpha2.region ∧ arnAlpha1.name = arnAlpha2.name)) :=
  ⟨by decide, SetClusterName_key CommandOptions.zero arnAlpha1 arnAlpha2 (by decide) (by decide)⟩

/-- C3 fails as stated: with the option `AwsClusterName` on, the clusters
`alpha` of two different accounts in one region get the same name. -/
theorem SetClusterName_key_counterexample :
    arnAlpha1.WellFormed ∧ arnAlpha2.WellFormed
      ∧ arnAlpha1.toArn = "arn:aws:eks:us-east-1:111111111111:cluster/alpha"
      ∧ arnAlpha2.toArn = "arn:aws:eks:us-east-1:222222222222:cluster/alpha"
      ∧ arnAlpha1.account ≠ arnAlpha2.account
      ∧ { CommandOptions.zero with AwsClusterName := true }.SetClusterName (some arnAlpha1.toArn)
          = some "us-east-1:alpha"
      ∧ { CommandOptions.zero with AwsClusterName := true }.SetClusterName (some arnAlpha2.toArn)
          = some "us-east-1:alpha" := by
  decide

/-- C4, as amended: for a well-formed cluster ARN, `SetClusterName` returns
`<account-id>:<region>:<cluster-short-name>` when the option
`AwsClusterName` is off and `<region>:<cluster-short-name>` when it is on,
where `<region>` is the fourth segment of the ARN. -/
theorem SetClusterName_naming (c : CommandOptions) (a : ArnParts) (h : a.WellFormed) :
    (c.AwsClusterName = false →
        c.SetClusterName (some a.toArn) = some (a.account ++ ":" ++ a.region ++ ":" ++ a.name))
      ∧ (c.AwsClusterName = true →
        c.SetClusterName (some a.toArn) = some (a.region ++ ":" ++ a.name)) := by
  constructor <;> intro hc <;> simp [SetClusterName_toArn c a h, hc]

theorem SetClusterName_naming_witness :
    arnAlpha1.WellFormed
      ∧ (CommandOptions.zero.AwsClusterName = false →
        CommandOptions.zero.SetClusterName (some arnAlpha1.toArn)
          = some (arnAlpha1.account ++ ":" ++ arnAlpha1.region ++ ":" ++ arnAlpha1.name))
      ∧ (CommandOptions.zero.AwsClusterName = true →
        CommandOptions.zero.SetClusterName (some arnAlpha1.toArn)
          = some (arnAlpha1.region ++ ":" ++ arnAlpha1.name)) :=
  ⟨by decide, SetClusterName_naming CommandOptions.zero arnAlpha1 (by decide)⟩

/-- C4 fails as stated: for `arn:aws:eks:us-east-1:111111111111:cluster/alpha`
the names are built with the region `us-east-1`, not with the partition
`aws`. -/
theorem SetClusterName_naming_counterexample :
    arnAlpha1.WellFormed
      ∧ arnAlpha1.toArn = "arn:aws:eks:us-east-1:111111111111:cluster/alpha"
      ∧ CommandOptions.zero.SetClusterName (some arnAlpha1.toArn)
          = some "111111111111:us-east-1:alpha"
      ∧ CommandOptions.zero.SetClusterName (some arnAlpha1.toArn)
          ≠ some (arnAlpha1.account ++ ":" ++ arnAlpha1.partition ++ ":" ++ arnAlpha1.name)
      ∧ { CommandOptions.zero with AwsClusterName := true }.SetClusterName (some arnAlpha1.toArn)
          = some "us-east-1:alpha"
      ∧ { CommandOptions.zero with AwsClusterName := true }.SetClusterName (some arnAlpha1.toArn)
          ≠ some (arnAlpha1.partition ++ ":" ++ arnAlpha1.name) := by
  decide

/-- C5, as amended: `SetClusterName` returns a name exactly when the
identifier has at least six pieces between its `:` separators, and that
name is the formatted name of the option value, built from the pieces 3, 4
and 5; with fewer than six pieces the indexing fails and nothing is
returned. -/
theorem SetClusterName_total_on_six_segments (c : CommandOptions) (arn : String) :
    c.SetClusterName (some arn)
      = if (Split arn ':').length < 6 then none
        else some (if c.AwsClusterName then
                     segment arn 3 ++ ":" ++ TrimPrefix (segment arn 5) "cluster/"
                   else
                     segment arn 4 ++ ":" ++ segment arn 3 ++ ":"
                       ++ TrimPrefix (segment arn 5) "cluster/") := by
  unfold segment
  rcases hs : Split arn ':' with _ | ⟨s0, _ | ⟨s1, _ | ⟨s2, _ | ⟨s3, _ | ⟨s4, _ | ⟨s5, t⟩⟩⟩⟩⟩⟩ <;>
    cases hc : c.AwsClusterName <;>
    simp [CommandOptions.SetClusterName, hs, hc]

/-- C5 fails as stated: for the identifier `alpha`, which has one piece,
`SetClusterName` fails instead of returning `alpha`. -/
theorem SetClusterName_total_counterexample :
    (Split "alpha" ':').length < 6
      ∧ CommandOptions.zero.SetClusterName (some "alpha") = none
      ∧ { CommandOptions.zero with AwsClusterName := true }.SetClusterName (some "alpha") = none
      ∧ CommandOptions.zero.SetClusterName (some "alpha") ≠ some "alpha" := by
  decide

/-- C10 fails on the code: with the option `AwsAuth` on and an empty
`AwsRoleString`, `setCommand` returns `aws-iam-authenticator` while `AwsArgs`
returns the argument list of the `aws` command, which begins with
`--region` and not with `token`. -/
theorem AwsArgs_mismatches_setCommand (SplitAzIDAndGiveItem : String → String → Nat → String)
    (region clusterName arn : String) :
    { CommandOptions.zero with AwsAuth := true }.setCommand = "aws-iam-authenticator"
      ∧ { CommandOptions.zero with AwsAuth := true }.AwsArgs SplitAzIDAndGiveItem region
            clusterName arn
          = ["--region", region, "eks", "get-token", "--cluster-name", clusterName]
      ∧ ({ CommandOptions.zero with AwsAuth := true }.AwsArgs SplitAzIDAndGiveItem region
            clusterName arn).head? ≠ some "token" := by
  simp [CommandOptions.setCommand, CommandOptions.AwsArgs, CommandOptions.zero]

/-- With a role string, the first argument matches the command: `token` for
`aws-iam-authenticator`, `--region` for `aws`; without the option `AwsAuth`
it is `--region` for `aws` whatever the role string. -/
theorem AwsArgs_matches_setCommand (SplitAzIDAndGiveItem : String → String → Nat → String)
    (c : CommandOptions) (region clusterName arn : String)
    (h : c.AwsRoleString ≠ "" ∨ c.AwsAuth = false) :
    ((c.AwsArgs SplitAzIDAndGiveItem region clusterName arn).head? = some "token"
        ↔ c.setCommand = "aws-iam-authenticator")
      ∧ ((c.AwsArgs SplitAzIDAndGiveItem region clusterName arn).head? = some "--region"
        ↔ c.setCommand = "aws") := by
  cases ha : c.AwsAuth <;> by_cases hr : c.AwsRoleString = "" <;>
    simp_all [CommandOptions.setCommand, CommandOptions.AwsArgs]

/-- C6 fails on the code: in the list of the profiles `dev-admin` and `dev`
the account name `dev` resolves to index 0, the profile `dev-admin`, because
`profile dev-admin` contains `dev`. -/
theorem XinAwsProfiles_resolves_wrong_profile :
    (profilesDev.map fun p => p.Name).Nodup
      ∧ (∀ p ∈ profilesDev, p.ConfProfile = p.Name ∨ p.ConfProfile = "profile " ++ p.Name)
      ∧ "dev" ∈ profilesDev.map (fun p => p.Name)
      ∧ XinAwsProfiles "dev" profilesDev = (0, true)
      ∧ (profilesDev.get? 0).map (fun p => p.Name) = some "dev-admin" := by
  decide

/-- C2 fails on the code: of two profiles with distinct names that both
fail the identity check, only the first is removed; the returned list has
one profile, not zero. -/
theorem resolveProfiles_keeps_second_failure :
    (profilesStale.map fun p => p.Name).Nodup
      ∧ (profilesStale.filter (failsValidation configLoads identityDenied)).length = 2
      ∧ validateCredentials configLoads identityDenied profilesStale
          = ("stale", some "InvalidClientTokenId")
      ∧ resolveProfiles CommandOptions.zero configLoads identityDenied profilesStale
          = some [{ Name := "old", IsRole := false, Arn := "", ConfProfile := "profile old" }]
      ∧ (resolveProfiles CommandOptions.zero configLoads identityDenied profilesStale).map
            List.length
          ≠ some (profilesStale.length
              - (profilesStale.filter (failsValidation configLoads identityDenied)).length) := by
  decide

/-! ## Profile validation without the option `Validate` -/

theorem validateCredentials_first_failure
    (loadDefaultConfig : String → Option String) (getCallerIdentity : AwsProfiles → Option String)
    (pre post : List AwsProfiles) (p : AwsProfiles)
    (hpre : ∀ q ∈ pre, failsValidation loadDefaultConfig getCallerIdentity q = false)
    (hp : failsValidation loadDefaultConfig getCallerIdentity p = true) :
    ∃ err, validateCredentials loadDefaultConfig getCallerIdentity (pre ++ p :: post)
      = (p.Name, some err) := by
  induction pre with
  | nil =>
    simp only [failsValidation, Bool.or_eq_true, Option.isSome_iff_exists] at hp
    cases hl : loadDefaultConfig p.Name with
    | some e => exact ⟨e, by simp [validateCredentials, hl]⟩
    | none =>
      cases hg : getCallerIdentity p with
      | some e => exact ⟨e, by simp [validateCredentials, hl, hg]⟩
      | none => simp [hl, hg] at hp
  | cons q pre ih =>
    have hq := hpre q (List.mem_cons_self _ _)
    have hq : loadDefaultConfig q.Name = none ∧ getCallerIdentity q = none := by
      unfold failsValidation at hq
      cases h1 : loadDefaultConfig q.Name <;> cases h2 : getCallerIdentity q <;>
        simp [h1, h2] at hq ⊢
    obtain ⟨err, herr⟩ := ih fun r hr => hpre r (List.mem_cons_of_mem _ hr)
    exact ⟨err, by simp [validateCredentials, hq.1, hq.2, herr]⟩

theorem validateCredentials_all_pass
    (loadDefaultConfig : String → Option String) (getCallerIdentity : AwsProfiles → Option String)
    (arr : List AwsProfiles)
    (h : ∀ q ∈ arr, failsValidation loadDefaultConfig getCallerIdentity q = false) :
    validateCredentials loadDefaultConfig getCallerIdentity arr = ("", none) := by
  induction arr with
  | nil => rfl
  | cons q arr ih =>
    have hq := h q (List.mem_cons_self _ _)
    have hq : loadDefaultConfig q.Name = none ∧ getCallerIdentity q = none := by
      unfold failsValidation at hq
      cases h1 : loadDefaultConfig q.Name <;> cases h2 : getCallerIdentity q <;>
        simp [h1, h2] at hq ⊢
    simp [validateCredentials, hq.1, hq.2, ih fun r hr => h r (List.mem_cons_of_mem _ hr)]

theorem finalizeLoop_skip (f : String) (k i : Nat) (s : SliceState)
    (hlen : i + k ≤ s.buf.length)
    (h : ∀ v ∈ (s.buf.drop i).take k, v.Name ≠ f) :
    finalizeLoop f k i s = some s := by
  induction k generalizing i with
  | zero => rfl
  | succ k ih =>
    have hi : i < s.buf.length := by omega
    have hdrop : s.buf.drop i = s.buf[i] :: s.buf.drop (i + 1) :=
      List.drop_eq_getElem_cons hi
    have hv : s.buf[i].Name ≠ f :=
      h _ (by rw [hdrop, List.take_succ_cons]; exact List.mem_cons_self _ _)
    have hrest : ∀ v ∈ (s.buf.drop (i + 1)).take k, v.Name ≠ f := by
      intro v hv2
      exact h v (by rw [hdrop, List.take_succ_cons]; exact List.mem_cons_of_mem _ hv2)
    simp only [finalizeLoop, List.get?_eq_getElem?, List.getElem?_eq_getElem hi, hv, if_false]
    exact ih (i + 1) (by omega) hrest

theorem finalizeLoop_prefix (f : String) (k1 k2 i : Nat) (s : SliceState)
    (hlen : i + k1 ≤ s.buf.length)
    (h : ∀ v ∈ (s.buf.drop i).take k1, v.Name ≠ f) :
    finalizeLoop f (k1 + k2) i s = finalizeLoop f k2 (i + k1) s := by
  induction k1 generalizing i with
  | zero => simp
  | succ k ih =>
    have hi : i < s.buf.length := by omega
    have hdrop : s.buf.drop i = s.buf[i] :: s.buf.drop (i + 1) :=
      List.drop_eq_getElem_cons hi
    have hv : s.buf[i].Name ≠ f :=
      h _ (by rw [hdrop, List.take_succ_cons]; exact List.mem_cons_self _ _)
    have hrest : ∀ v ∈ (s.buf.drop (i + 1)).take k, v.Name ≠ f := by
      intro v hv2
      exact h v (by rw [hdrop, List.take_succ_cons]; exact List.mem_cons_of_mem _ hv2)
    have e : k + 1 + k2 = (k + k2) + 1 := by omega
    rw [e]
    simp only [finalizeLoop, List.get?_eq_getElem?, List.getElem?_eq_getElem hi, hv, if_false]
    rw [ih (i + 1) (by omega) hrest]
    congr 1
    omega

theorem finalizeLoop_removes_faulty (pre post : List AwsProfiles) (p : AwsProfiles)
    (hnd : ((pre ++ p :: post).map fun q => q.Name).Nodup) :
    (finalizeLoop p.Name (pre ++ p :: post).length 0
        { buf := pre ++ p :: post, len := (pre ++ p :: post).length }).map
      (fun s => s.buf.take s.len) = some (pre ++ post) := by
  have hpre : ∀ v ∈ pre, v.Name ≠ p.Name := by
    intro v hv e
    rw [List.map_append, List.nodup_append] at hnd
    exact hnd.2.2 (List.mem_map_of_mem _ hv) (by simp [e])
  have hpost : ∀ v ∈ post, v.Name ≠ p.Name := by
    intro v hv e
    rw [List.map_append, List.nodup_append, List.map_cons, List.nodup_cons] at hnd
    exact hnd.2.1.1 (by rw [← e]; exact List.mem_map_of_mem _ hv)
  have hn : (pre ++ p :: post).length = pre.length + (post.length + 1) := by simp
  rw [hn, finalizeLoop_prefix p.Name pre.length (post.length + 1) 0 _ (by simp)
    (by simpa using hpre)]
  have hget : (pre ++ p :: post).get? (0 + pre.length) = some p := by
    rw [Nat.zero_add, List.get?_eq_getElem?, List.getElem?_append_right (Nat.le_refl _)]
    simp
  have hrem : SliceState.removeAt
      { buf := pre ++ p :: post, len := pre.length + (post.length + 1) } (0 + pre.length)
      = some { buf := pre ++ post ++ (pre ++ p :: post).drop (pre.length + post.length),
               len := pre.length + post.length } := by
    have h1 : 0 + pre.length + 1 ≤ pre.length + (post.length + 1) := by omega
    have h2 : pre.length + (post.length + 1) - (0 + pre.length + 1) = post.length := by omega
    have h3 : pre.length + (post.length + 1) - 1 = pre.length + post.length := by omega
    have h4 : (pre ++ p :: post).drop (0 + pre.length + 1) = post := by
      rw [Nat.zero_add, ← List.drop_drop]
      simp
    have h5 : (pre ++ p :: post).take (0 + pre.length) = pre := by simp
    simp only [SliceState.removeAt, h1, if_true, h2, h3, h4, h5, List.take_length]
  simp only [finalizeLoop, hget, if_true, hrem]
  rw [Option.bind, finalizeLoop_skip]
  · simp only [Option.map_some', Option.some.injEq]
    rw [List.take_left' (by simp)]
  · simp only [List.length_append, List.length_drop, List.length_cons]
    omega
  · cases post with
    | nil => simp
    | cons q post2 =>
      intro v hv
      have hv1 := List.mem_of_mem_drop (List.mem_of_mem_take hv)
      have hd : (pre ++ p :: q :: post2).drop (pre.length + (q :: post2).length)
          = (q :: post2).drop post2.length := by
        rw [List.drop_append, List.length_cons, List.drop_succ_cons]
      rw [hd] at hv1
      simp only [List.mem_append] at hv1
      rcases hv1 with (hv1 | hv1) | hv1
      · exact hpre v hv1
      · exact hpost v hv1
      · exact hpost v (List.mem_of_mem_drop hv1)

/-- What `GetLocalAwsProfiles` does without the option `Validate`: when no
profile fails, the list is returned as it is; otherwise exactly the first
failing profile is removed, and the profiles after it are returned without
having been checked. -/
theorem resolveProfiles_removes_first_failure (c : CommandOptions)
    (loadDefaultConfig : String → Option String) (getCallerIdentity : AwsProfiles → Option String)
    (pre post : List AwsProfiles) (p : AwsProfiles)
    (hc : c.Validate = false)
    (hnd : ((pre ++ p :: post).map fun q => q.Name).Nodup)
    (hpre : ∀ q ∈ pre, failsValidation loadDefaultConfig getCallerIdentity q = false)
    (hp : failsValidation loadDefaultConfig getCallerIdentity p = true) :
    resolveProfiles c loadDefaultConfig getCallerIdentity (pre ++ p :: post)
      = some (pre ++ post) := by
  obtain ⟨err, herr⟩ :=
    validateCredentials_first_failure loadDefaultConfig getCallerIdentity pre post p hpre hp
  simp only [resolveProfiles, herr, CommandOptions.finalizeValidation, hc, Bool.false_eq_true,
    if_false]
  exact finalizeLoop_removes_faulty pre post p hnd

theorem resolveProfiles_all_pass (c : CommandOptions)
    (loadDefaultConfig : String → Option String) (getCallerIdentity : AwsProfiles → Option String)
    (arr : List AwsProfiles)
    (h : ∀ q ∈ arr, failsValidation loadDefaultConfig getCallerIdentity q = false) :
    resolveProfiles c loadDefaultConfig getCallerIdentity arr = some arr := by
  simp only [resolveProfiles, validateCredentials_all_pass _ _ arr h,
    CommandOptions.finalizeValidation]
  cases c.Validate <;> simp

end K8f
